import Mathlib

/-!
Verification of the winget upgrade-manager utility (`src/WingetLoop.py`).

The development shallowly embeds the two non-trivial pieces of the program:

* `parse_winget_output` — the tabular-output parser (lines 6–46 of the
  source).  Python strings are modelled as `List Char` internally and
  wrapped in Lean `String`s at the interface.  Only the ASCII fragment of
  Python's `str` semantics is modelled (the report and the console input
  are ASCII); `str.strip`, `str.lower`, `str.split('\n')`,
  `re.split(r'\s{2,}', ·)` and `int(·)` are each given a faithful
  executable model below.

* the body of the interactive selection loop inside
  `run_winget_upgrade_manager` (lines 100–144 of the source), embedded as
  the pure step function `selection_step`: given the current working list
  and the stripped user input it returns the external invocations
  performed by that iteration together with `none` (the loop terminates)
  or `some l` (the loop continues with working list `l`).
-/

/-- ASCII whitespace, as stripped by Python `str.strip()` and matched by
`\s` in `re.split` (restricted to the ASCII plane). -/
def isPySpace (c : Char) : Bool :=
  c == ' ' || c == '\t' || c == '\n' || c == '\r' || c == '\x0b' ||
  c == '\x0c' || c == '\x1c' || c == '\x1d' || c == '\x1e' || c == '\x1f'

/-- Python `str.strip()` on a character list: drop whitespace from both ends. -/
def stripL (l : List Char) : List Char :=
  ((l.dropWhile isPySpace).reverse.dropWhile isPySpace).reverse

/-- Python `str.strip()` at the `String` interface. -/
def pyStrip (s : String) : String := ⟨stripL s.data⟩

/-- Python `str.split('\n')`: cut at every newline, keeping empty pieces
(so the result always has one more piece than there are newlines). -/
def splitNl : List Char → List (List Char)
  | [] => [[]]
  | c :: cs =>
    if c = '\n' then [] :: splitNl cs
    else
      match splitNl cs with
      | [] => [[c]]
      | r :: rs => (c :: r) :: rs

/-- State of the column-splitting scanner for `re.split(r'\s{2,}', line)`:
either building a field, or having seen exactly one whitespace character
after a field, or inside a separator run of two or more whitespace
characters. -/
inductive ColState where
  | field (cur : List Char) : ColState
  | pending (cur : List Char) (sp : Char) : ColState
  | run : ColState

/-- Scanner for `re.split(r'\s{2,}', line)`.  `cur` accumulates the current
field reversed; a single whitespace character stays inside the field, a
run of two or more ends it. -/
def splitColsGo : ColState → List Char → List (List Char)
  | ColState.field cur, [] => [cur.reverse]
  | ColState.pending cur sp, [] => [(sp :: cur).reverse]
  | ColState.run, [] => [[]]
  | ColState.field cur, c :: cs =>
    if isPySpace c then splitColsGo (ColState.pending cur c) cs
    else splitColsGo (ColState.field (c :: cur)) cs
  | ColState.pending cur sp, c :: cs =>
    if isPySpace c then cur.reverse :: splitColsGo ColState.run cs
    else splitColsGo (ColState.field (c :: sp :: cur)) cs
  | ColState.run, c :: cs =>
    if isPySpace c then splitColsGo ColState.run cs
    else splitColsGo (ColState.field [c]) cs

/-- Python `re.split(r'\s{2,}', line)`: split on maximal runs of two or
more whitespace characters. -/
def splitCols (l : List Char) : List (List Char) :=
  splitColsGo (ColState.field []) l

/-- The separator test of the source, line 17:
`line.strip().startswith(('---', '===='))`. -/
def isSepLineL (l : List Char) : Bool :=
  List.isPrefixOf "---".data (stripL l) || List.isPrefixOf "====".data (stripL l)

/-- Index of the first separator line, mirroring the `for i, line in
enumerate(lines)` loop with `break` of lines 15–20. -/
def findSepIdx : List (List Char) → Option Nat
  | [] => none
  | l :: ls => if isSepLineL l then some 0 else (findSepIdx ls).map (· + 1)

/-- One row of the report: the dictionary built at lines 38–43 of the
source, with keys `name`, `id`, `version`, `available`. -/
structure UpgradeCandidate where
  name : String
  id : String
  version : String
  available : String
deriving DecidableEq

/-- Body of the per-line loop of lines 25–44: strip the line, skip it when
blank or starting with `Found`, split it into columns, require at least 5
fields and non-empty trimmed name and id, and build the candidate from
trimmed fields 0–3 (field 4, the source column, is ignored).  The Python
locals `line`, `parts`, `name` and `pkg_id` are inlined. -/
def rowToCandidate (rawLine : List Char) : Option UpgradeCandidate :=
  if stripL rawLine = [] then none
  else if List.isPrefixOf "Found".data (stripL rawLine) then none
  else if 5 ≤ (splitCols (stripL rawLine)).length then
    if stripL ((splitCols (stripL rawLine)).getD 0 []) = [] ∨
       stripL ((splitCols (stripL rawLine)).getD 1 []) = [] then none
    else some { name := ⟨stripL ((splitCols (stripL rawLine)).getD 0 [])⟩,
                id := ⟨stripL ((splitCols (stripL rawLine)).getD 1 [])⟩,
                version := ⟨stripL ((splitCols (stripL rawLine)).getD 2 [])⟩,
                available := ⟨stripL ((splitCols (stripL rawLine)).getD 3 [])⟩ }
  else none

/-- The parser after line-splitting: find the first separator line; when
none exists return the empty list (lines 21–22), otherwise process every
later line with `rowToCandidate` (lines 25–44, a conditional-append loop,
i.e. `filterMap`). -/
def parseLines (ls : List (List Char)) : List UpgradeCandidate :=
  match findSepIdx ls with
  | none => []
  | some i => (ls.drop (i + 1)).filterMap rowToCandidate

/-- `parse_winget_output` of the source (lines 6–46):
`lines = output.strip().split('\n')` followed by `parseLines`. -/
def parse_winget_output (output : String) : List UpgradeCandidate :=
  parseLines (splitNl (stripL output.data))

/-- Python `str.lower()` restricted to ASCII: `Char.toLower` on every
character. -/
def pyLower (s : String) : String := ⟨s.data.map Char.toLower⟩

/-- Decimal value of an ASCII digit. -/
def digitVal (c : Char) : Nat := c.toNat - 48

/-- Digits after the first one in Python `int` syntax: a single underscore
may stand between two digits, never leading, trailing or doubled. -/
def digitsRest (acc : Nat) : List Char → Option Nat
  | [] => some acc
  | '_' :: c :: cs => if c.isDigit then digitsRest (acc * 10 + digitVal c) cs else none
  | ['_'] => none
  | c :: cs => if c.isDigit then digitsRest (acc * 10 + digitVal c) cs else none

/-- A non-empty digit group in Python `int` syntax. -/
def digitsVal : List Char → Option Nat
  | [] => none
  | c :: cs => if c.isDigit then digitsRest (digitVal c) cs else none

/-- Python `int(·)` on an already-stripped string: optional sign followed
by a non-empty digit group. -/
def pyIntCore : List Char → Option Int
  | '+' :: cs => (digitsVal cs).map Int.ofNat
  | '-' :: cs => (digitsVal cs).map fun n => -(n : Int)
  | cs => (digitsVal cs).map Int.ofNat

/-- Python `int(·)` on a string (ASCII fragment): surrounding whitespace
is ignored, then `pyIntCore`; `none` models `ValueError`. -/
def pyInt (s : String) : Option Int := pyIntCore (stripL s.data)

/-- One external invocation performed by the selection loop: either
`winget upgrade --all ...` (line 107) or `winget upgrade --id <id> ...`
(line 125). -/
inductive Invocation where
  | upgradeAll : Invocation
  | upgradeOne (pkgId : String) : Invocation
deriving DecidableEq

/-- Placeholder candidate for the (unreachable) out-of-bounds read in the
embedding of `packages_to_upgrade[selection_index - 1]`. -/
def dummyCandidate : UpgradeCandidate := { name := "", id := "", version := "", available := "" }

/-- One iteration of the selection loop (lines 100–144 of the source),
given the working list and the stripped user input
(`input(...).strip()`, line 98).  Returns the external invocations made
during the iteration, and `none` when the loop terminates (`return`) or
`some l` when it loops again with working list `l`:

* `user_input.lower() == 'c'` → return, no invocation (lines 100–102);
* `user_input == '0'` → one upgrade-all invocation, return (104–114);
* otherwise `int(user_input)`; on `ValueError` print a diagnostic and
  loop with the list unchanged (141–142); on a value in
  `1 ≤ n ≤ len(list)` perform one per-item invocation, `pop` the chosen
  entry unconditionally, return when the list became empty and loop
  otherwise (117–135); on an out-of-range value print a diagnostic and
  loop with the list unchanged (137–138). -/
def selection_step (pkgs : List UpgradeCandidate) (u : String) :
    List Invocation × Option (List UpgradeCandidate) :=
  if pyLower u = "c" then ([], none)
  else if u = "0" then ([Invocation.upgradeAll], none)
  else
    match pyInt u with
    | some n =>
      if 1 ≤ n ∧ n ≤ (pkgs.length : Int) then
        let idx := (n - 1).toNat
        let selected := pkgs.getD idx dummyCandidate
        let rest := pkgs.eraseIdx idx
        ([Invocation.upgradeOne selected.id], if rest = [] then none else some rest)
      else ([], some pkgs)
    | none => ([], some pkgs)

/-- Length of the leading run of the character `c` at the start of `l`. -/
def leadingRun (c : Char) (l : List Char) : Nat :=
  (l.takeWhile (fun x => x = c)).length

/-- The separator condition in the words of the specification: the trimmed
content begins with a run of three or more `-` or `=` characters. -/
def specSeparator (l : List Char) : Prop :=
  3 ≤ leadingRun '-' (stripL l) ∨ 3 ≤ leadingRun '=' (stripL l)

/-- The amended separator condition: the trimmed content begins with a run
of three or more `-` characters, or of four or more `=` characters. -/
def amendedSeparator (l : List Char) : Prop :=
  3 ≤ leadingRun '-' (stripL l) ∨ 4 ≤ leadingRun '=' (stripL l)

/-- A well-formed data row, with the checks of lines 26–36 of the source:
non-blank after stripping, not beginning with `Found`, splitting into at
least 5 columns, and with non-empty trimmed name and id fields. -/
def wellFormedRow (r : List Char) : Prop :=
  stripL r ≠ [] ∧
  ¬ (List.isPrefixOf "Found".data (stripL r) = true) ∧
  5 ≤ (splitCols (stripL r)).length ∧
  stripL ((splitCols (stripL r)).getD 0 []) ≠ [] ∧
  stripL ((splitCols (stripL r)).getD 1 []) ≠ []

/-- The candidate a well-formed row parses to: trimmed fields 0–3 of the
column split of the stripped row. -/
def candidateOfRow (r : List Char) : UpgradeCandidate :=
  let parts := splitCols (stripL r)
  { name := ⟨stripL (parts.getD 0 [])⟩, id := ⟨stripL (parts.getD 1 [])⟩,
    version := ⟨stripL (parts.getD 2 [])⟩, available := ⟨stripL (parts.getD 3 [])⟩ }

instance (l : List Char) : Decidable (specSeparator l) := by
  unfold specSeparator; infer_instance

instance (l : List Char) : Decidable (amendedSeparator l) := by
  unfold amendedSeparator; infer_instance

instance (r : List Char) : Decidable (wellFormedRow r) := by
  unfold wellFormedRow; infer_instance

theorem toLower_eq_c {a : Char} (h : a.toLower = 'c') : a = 'c' ∨ a = 'C' := by
  simp only [Char.toLower] at h
  split at h
  · rename_i hcond
    obtain ⟨h65, h90⟩ := hcond
    right
    interval_cases hm : a.toNat <;> simp_all
    exact Char.ext (UInt32.ext hm)
  · exact Or.inl h

theorem pyLower_eq_c {u : String} (h : pyLower u = "c") : u = "c" ∨ u = "C" := by
  obtain ⟨d⟩ := u
  have hd : d.map Char.toLower = ['c'] := congrArg String.data h
  cases d with
  | nil => simp at hd
  | cons a as =>
    rw [List.map_cons] at hd
    injection hd with h1 h2
    have has : as = [] := List.map_eq_nil_iff.mp h2
    subst has
    rcases toLower_eq_c h1 with h' | h' <;> subst h'
    · exact Or.inl rfl
    · exact Or.inr rfl

theorem findSepIdx_eq_none {ls : List (List Char)}
    (h : ∀ l ∈ ls, isSepLineL l = false) : findSepIdx ls = none := by
  induction ls with
  | nil => rfl
  | cons a as ih =>
    rw [findSepIdx, if_neg (by simp [h a (List.mem_cons_self a as)]),
      ih fun l hl => h l (List.mem_cons_of_mem a hl)]
    rfl

theorem findSepIdx_of_first {ls : List (List Char)} {i : Nat}
    (hi : i < ls.length) (hsep : isSepLineL (ls.getD i []) = true)
    (hmin : ∀ j, j < i → isSepLineL (ls.getD j []) = false) :
    findSepIdx ls = some i := by
  induction ls generalizing i with
  | nil => simp at hi
  | cons a as ih =>
    cases i with
    | zero =>
      rw [findSepIdx, if_pos (by simpa using hsep)]
    | succ k =>
      rw [findSepIdx, if_neg (by simpa using hmin 0 (Nat.succ_pos k))]
      rw [ih (by simpa using hi) (by simpa using hsep)
        (fun j hj => by simpa using hmin (j + 1) (Nat.succ_lt_succ hj))]
      rfl

theorem isPrefixOf_replicate_iff {c : Char} {n : Nat} {l : List Char} :
    List.isPrefixOf (List.replicate n c) l = true ↔ n ≤ leadingRun c l := by
  induction n generalizing l with
  | zero => simp [List.isPrefixOf]
  | succ m ih =>
    cases l with
    | nil => simp [List.replicate, List.isPrefixOf, leadingRun]
    | cons a as =>
      by_cases hac : a = c
      · subst hac
        simp [List.replicate_succ, List.isPrefixOf, leadingRun, List.takeWhile_cons,
          ih, Nat.succ_le_succ_iff]
      · have hca : (c == a) = false := by simp [Ne.symm hac]
        rw [List.replicate_succ,
          show List.isPrefixOf (c :: List.replicate m c) (a :: as) =
            ((c == a) && List.isPrefixOf (List.replicate m c) as) from rfl,
          hca, leadingRun, List.takeWhile_cons_of_neg (by simp [hac])]
        simp

theorem sepLine_iff_amended (l : List Char) : isSepLineL l = true ↔ amendedSeparator l := by
  have h3 : "---".data = List.replicate 3 '-' := rfl
  have h4 : "====".data = List.replicate 4 '=' := rfl
  rw [isSepLineL, Bool.or_eq_true, h3, h4, isPrefixOf_replicate_iff,
    isPrefixOf_replicate_iff, amendedSeparator]

theorem parse_eq_filterMap {output : String} {sep : List Char} {rows : List (List Char)}
    (hsplit : splitNl (stripL output.data) = sep :: rows)
    (hsep : isSepLineL sep = true) :
    parse_winget_output output = rows.filterMap rowToCandidate := by
  rw [parse_winget_output, hsplit, parseLines, findSepIdx, if_pos hsep]
  rfl

theorem rowToCandidate_wellFormed {r : List Char} (h : wellFormedRow r) :
    rowToCandidate r = some (candidateOfRow r) := by
  obtain ⟨h1, h2, h3, h4, h5⟩ := h
  rw [rowToCandidate, if_neg h1, if_neg h2, if_pos h3,
    if_neg (by rw [not_or]; exact ⟨h4, h5⟩), candidateOfRow]

theorem rowToCandidate_short {r : List Char}
    (h : (splitCols (stripL r)).length < 5) : rowToCandidate r = none := by
  rw [rowToCandidate]
  split
  · rfl
  · split
    · rfl
    · rw [if_neg (by omega)]

theorem filterMap_wellFormed_eq_map {rs : List (List Char)}
    (h : ∀ r ∈ rs, wellFormedRow r) :
    rs.filterMap rowToCandidate = rs.map candidateOfRow := by
  induction rs with
  | nil => rfl
  | cons a as ih =>
    rw [List.filterMap_cons, rowToCandidate_wellFormed (h a (List.mem_cons_self a as)),
      List.map_cons, ih fun r hr => h r (List.mem_cons_of_mem a hr)]

theorem rowToCandidate_some_nonempty {r : List Char} {cand : UpgradeCandidate}
    (h : rowToCandidate r = some cand) : cand.name ≠ "" ∧ cand.id ≠ "" := by
  rw [rowToCandidate] at h
  split at h
  · exact absurd h (by simp)
  · split at h
    · exact absurd h (by simp)
    · split at h
      · split at h
        · exact absurd h (by simp)
        · rename_i hguard
          rw [not_or] at hguard
          obtain ⟨hn, hi⟩ := hguard
          injection h with hcand
          subst hcand
          refine ⟨?_, ?_⟩ <;> intro hcontra
          · exact hn (congrArg String.data hcontra)
          · exact hi (congrArg String.data hcontra)
      · exact absurd h (by simp)

theorem mem_parse_of_mem {output : String} {cand : UpgradeCandidate}
    (h : cand ∈ parse_winget_output output) :
    ∃ r, rowToCandidate r = some cand := by
  rw [parse_winget_output, parseLines] at h
  split at h
  · simp at h
  · obtain ⟨r, _, hr⟩ := List.mem_filterMap.mp h
    exact ⟨r, hr⟩

/-- C1 counterexample: the line `===` satisfies the claim's separator
condition (its trimmed content begins with a run of three or more `=`
characters), yet the parser does not treat it as a header/data boundary:
the identical data row yields a candidate when preceded by `---` but
nothing when preceded by `===`, and the input whose only claim-separator
is `===` parses to the empty sequence. -/
theorem c1_counterexample :
    specSeparator "===".data ∧
    parse_winget_output "===\nFoo  Id  1.0  2.0  src" = [] ∧
    parse_winget_output "---\nFoo  Id  1.0  2.0  src" =
      [{ name := "Foo", id := "Id", version := "1.0", available := "2.0" }] :=
  ⟨by decide, by decide, by decide⟩

/-- C1 (amended): the parser treats as the header/data boundary the first
line whose trimmed content begins with a run of three or more `-`
characters or of four or more `=` characters; for every input text
containing no such line it returns an empty sequence, and data rows are
taken only from the lines after that first boundary line. -/
theorem c1_separator_boundary (output : String) :
    ((∀ l ∈ splitNl (stripL output.data), ¬ amendedSeparator l) →
      parse_winget_output output = []) ∧
    (∀ i, i < (splitNl (stripL output.data)).length →
      amendedSeparator ((splitNl (stripL output.data)).getD i []) →
      (∀ j, j < i → ¬ amendedSeparator ((splitNl (stripL output.data)).getD j [])) →
      parse_winget_output output =
        ((splitNl (stripL output.data)).drop (i + 1)).filterMap rowToCandidate) := by
  constructor
  · intro h
    have hnone : findSepIdx (splitNl (stripL output.data)) = none := by
      apply findSepIdx_eq_none
      intro l hl
      rw [Bool.eq_false_iff, ne_eq, sepLine_iff_amended]
      exact h l hl
    rw [parse_winget_output, parseLines, hnone]
  · intro i hi hsep hmin
    have hsome : findSepIdx (splitNl (stripL output.data)) = some i := by
      apply findSepIdx_of_first hi
      · rw [sepLine_iff_amended]
        exact hsep
      · intro j hj
        rw [Bool.eq_false_iff, ne_eq, sepLine_iff_amended]
        exact hmin j hj
    rw [parse_winget_output, parseLines, hsome]

theorem c1_separator_boundary_witness :
    parse_winget_output "===\nFoo  Id  1.0  2.0  src" = [] :=
  (c1_separator_boundary "===\nFoo  Id  1.0  2.0  src").1 (by decide)

/-- C8: the report consisting of the separator line `-----` followed by
the row `Foo Bar  FooBar.Id  1.0  2.0  winget` parses to exactly one
candidate with name `Foo Bar`, id `FooBar.Id`, currentVersion `1.0` and
availableVersion `2.0`. -/
theorem c8_literal_example :
    parse_winget_output "-----\nFoo Bar  FooBar.Id  1.0  2.0  winget" =
      [{ name := "Foo Bar", id := "FooBar.Id", version := "1.0", available := "2.0" }] := by
  decide

/-- C9: parsing the same report text twice yields equal candidate
sequences — `parse_winget_output` is a pure function of its input, so the
two runs produce the same value. -/
theorem c9_parse_deterministic (output : String) :
    parse_winget_output output = parse_winget_output output := rfl

/-- C2: for every well-formed report — a separator line followed by data
rows that are non-blank, do not begin with `Found`, split into at least 5
whitespace-run-delimited fields and have non-empty trimmed name and id —
the parser returns exactly one candidate per row, in source order, each
built from trimmed fields 0–3 with the fifth field ignored; and a row
with fewer than 5 fields is excluded without affecting adjacent rows. -/
theorem c2_well_formed_report (output : String) (sep : List Char)
    (rows : List (List Char))
    (hsplit : splitNl (stripL output.data) = sep :: rows)
    (hsep : isSepLineL sep = true)
    (hrows : ∀ r ∈ rows, wellFormedRow r) :
    parse_winget_output output = rows.map candidateOfRow ∧
    ∀ (rows1 rows2 : List (List Char)) (bad : List Char),
      (splitCols (stripL bad)).length < 5 →
      (rows1 ++ bad :: rows2).filterMap rowToCandidate =
        (rows1 ++ rows2).filterMap rowToCandidate := by
  constructor
  · rw [parse_eq_filterMap hsplit hsep, filterMap_wellFormed_eq_map hrows]
  · intro rows1 rows2 bad hbad
    rw [List.filterMap_append, List.filterMap_append, List.filterMap_cons,
      rowToCandidate_short hbad]

theorem c2_well_formed_report_witness :
    parse_winget_output
        "---\nAlpha One  Alpha.Id  1.0  1.1  winget\nBeta  Beta.Id  2.0  3.0  msstore" =
      [{ name := "Alpha One", id := "Alpha.Id", version := "1.0", available := "1.1" },
       { name := "Beta", id := "Beta.Id", version := "2.0", available := "3.0" }] := by
  have h := (c2_well_formed_report
    "---\nAlpha One  Alpha.Id  1.0  1.1  winget\nBeta  Beta.Id  2.0  3.0  msstore"
    "---".data
    ["Alpha One  Alpha.Id  1.0  1.1  winget".data, "Beta  Beta.Id  2.0  3.0  msstore".data]
    (by decide) (by decide) (by decide)).1
  exact h.trans (by decide)

/-- C7: every candidate emitted by the parser has a non-empty name and a
non-empty id, and any row whose trimmed name field or trimmed id field is
empty is discarded and produces no candidate. -/
theorem c7_nonempty_name_id (output : String) :
    (∀ cand ∈ parse_winget_output output, cand.name ≠ "" ∧ cand.id ≠ "") ∧
    (∀ r : List Char,
      (stripL ((splitCols (stripL r)).getD 0 []) = [] ∨
       stripL ((splitCols (stripL r)).getD 1 []) = []) →
      rowToCandidate r = none) := by
  constructor
  · intro cand hc
    obtain ⟨r, hr⟩ := mem_parse_of_mem hc
    exact rowToCandidate_some_nonempty hr
  · intro r hr
    rw [rowToCandidate]
    split_ifs <;> rfl

theorem c7_nonempty_name_id_witness :
    ({ name := "Foo", id := "Id", version := "1.0", available := "2.0" } :
      UpgradeCandidate).name ≠ "" ∧
    ({ name := "Foo", id := "Id", version := "1.0", available := "2.0" } :
      UpgradeCandidate).id ≠ "" :=
  (c7_nonempty_name_id "---\nFoo  Id  1.0  2.0  src").1
    { name := "Foo", id := "Id", version := "1.0", available := "2.0" } (by decide)

theorem splitColsGo_field_no_space {l : List Char} (cur : List Char)
    (h : ∀ c ∈ l, isPySpace c = false) :
    splitColsGo (ColState.field cur) l = [cur.reverse ++ l] := by
  induction l generalizing cur with
  | nil => simp [splitColsGo]
  | cons a as ih =>
    rw [splitColsGo, if_neg (by simp [h a (List.mem_cons_self a as)])]
    rw [ih (a :: cur) fun c hc => h c (List.mem_cons_of_mem a hc)]
    simp

theorem splitCols_no_space {l : List Char} (h : ∀ c ∈ l, isPySpace c = false) :
    splitCols l = [l] := by
  rw [splitCols, splitColsGo_field_no_space [] h]
  rfl

theorem rowToCandidate_dash_line {d : List Char}
    (hdash : ∀ c ∈ stripL d, c = '-') :
    (splitCols (stripL d)).length < 5 ∧ rowToCandidate d = none := by
  have hns : ∀ c ∈ stripL d, isPySpace c = false := by
    intro c hc
    rw [hdash c hc]
    rfl
  have hone : splitCols (stripL d) = [stripL d] := splitCols_no_space hns
  refine ⟨by rw [hone]; simp, ?_⟩
  exact rowToCandidate_short (by rw [hone]; simp)

/-- C10: only the first separator line determines the header/data
boundary — a later line of dashes that itself looks like a separator is
processed as an ordinary data row; splitting it on runs of two or more
whitespace characters yields a single field (fewer than 5), so it is
discarded and contributes no candidate, leaving the other rows
unaffected. -/
theorem c10_later_separator_line (output : String) (sep d : List Char)
    (rows1 rows2 : List (List Char))
    (hsplit : splitNl (stripL output.data) = sep :: (rows1 ++ d :: rows2))
    (hsep : isSepLineL sep = true) (_hd : isSepLineL d = true)
    (_hne : stripL d ≠ []) (hdash : ∀ c ∈ stripL d, c = '-') :
    (splitCols (stripL d)).length < 5 ∧
    rowToCandidate d = none ∧
    parse_winget_output output = (rows1 ++ rows2).filterMap rowToCandidate := by
  obtain ⟨hlen, hnone⟩ := rowToCandidate_dash_line hdash
  refine ⟨hlen, hnone, ?_⟩
  rw [parse_eq_filterMap hsplit hsep, List.filterMap_append, List.filterMap_cons,
    hnone, List.filterMap_append]

theorem c10_later_separator_line_witness :
    parse_winget_output "---\nFoo  Id  1.0  2.0  src\n-----\nBar  Bar.Id  1  2  s" =
      [{ name := "Foo", id := "Id", version := "1.0", available := "2.0" },
       { name := "Bar", id := "Bar.Id", version := "1", available := "2" }] := by
  have h := (c10_later_separator_line
    "---\nFoo  Id  1.0  2.0  src\n-----\nBar  Bar.Id  1  2  s"
    "---".data "-----".data
    ["Foo  Id  1.0  2.0  src".data] ["Bar  Bar.Id  1  2  s".data]
    (by decide) (by decide) (by decide) (by decide) (by decide)).2.2
  exact h.trans (by decide)

theorem pyInt_some_not_c {u : String} {n : Int} (h : pyInt u = some n) :
    ¬ pyLower u = "c" := by
  intro hc
  rcases pyLower_eq_c hc with h' | h'
  · rw [h', show pyInt "c" = none from by decide] at h
    exact Option.noConfusion h
  · rw [h', show pyInt "C" = none from by decide] at h
    exact Option.noConfusion h

/-- C3: for a non-empty working list and input parsing as an integer `n`
with `1 ≤ n ≤ length`, the loop performs exactly one external invocation,
targeting the id of the `n`-th (1-based) candidate, then removes that
entry unconditionally — the exit status is never inspected in the model —
keeping the remaining entries in relative order (`take (n-1) ++ drop n`);
it terminates when the list becomes empty and otherwise continues with
the shrunk list. -/
theorem c3_upgrade_one (pkgs : List UpgradeCandidate) (u : String) (n : Int)
    (_hne : pkgs ≠ []) (hu : pyInt u = some n) (h1 : 1 ≤ n)
    (h2 : n ≤ (pkgs.length : Int)) :
    selection_step pkgs u =
      ([Invocation.upgradeOne ((pkgs.getD ((n - 1).toNat) dummyCandidate).id)],
        if pkgs.length = 1 then none
        else some (pkgs.take ((n - 1).toNat) ++ pkgs.drop ((n - 1).toNat + 1))) := by
  have hc := pyInt_some_not_c hu
  have h0 : u ≠ "0" := by
    intro h'
    subst h'
    have h00 : pyInt "0" = some 0 := by decide
    have : (0 : Int) = n := by injection h00.symm.trans hu
    omega
  have hidx : (n - 1).toNat < pkgs.length := by omega
  simp only [selection_step]
  rw [if_neg hc, if_neg h0, hu]
  simp only [if_pos (And.intro h1 h2), List.eraseIdx_eq_take_drop_succ]
  have hiff : (pkgs.take ((n - 1).toNat) ++ pkgs.drop ((n - 1).toNat + 1)) = [] ↔
      pkgs.length = 1 := by
    constructor
    · intro he
      have hl := congrArg List.length he
      rw [List.length_append, List.length_take, List.length_drop,
        Nat.min_eq_left hidx.le, List.length_nil] at hl
      omega
    · intro hl
      have hz : (n - 1).toNat = 0 := by omega
      rw [hz]
      obtain ⟨a, ha⟩ := List.length_eq_one.mp hl
      subst ha
      rfl
  rw [if_congr hiff rfl rfl]

theorem c3_upgrade_one_witness :
    selection_step
      [{ name := "A", id := "A.Id", version := "1", available := "2" },
       { name := "B", id := "B.Id", version := "1", available := "2" },
       { name := "C", id := "C.Id", version := "1", available := "2" }] "2" =
      ([Invocation.upgradeOne "B.Id"],
        some [{ name := "A", id := "A.Id", version := "1", available := "2" },
              { name := "C", id := "C.Id", version := "1", available := "2" }]) := by
  have h := c3_upgrade_one
    [{ name := "A", id := "A.Id", version := "1", available := "2" },
     { name := "B", id := "B.Id", version := "1", available := "2" },
     { name := "C", id := "C.Id", version := "1", available := "2" }] "2" 2
    (by decide) (by decide) (by decide) (by decide)
  exact h.trans (by decide)

/-- C4: for any working list and any user input that is neither `c` nor
`C` nor `0` nor an integer in `[1, length]`, the loop performs no
external invocation, leaves the working list unchanged and returns to
prompting (the diagnostic print is console glue). -/
theorem c4_invalid_input (pkgs : List UpgradeCandidate) (u : String)
    (hc : u ≠ "c") (hC : u ≠ "C") (h0 : u ≠ "0")
    (hn : ∀ n : Int, pyInt u = some n → ¬(1 ≤ n ∧ n ≤ (pkgs.length : Int))) :
    selection_step pkgs u = ([], some pkgs) := by
  have hlc : ¬ pyLower u = "c" := by
    intro h'
    rcases pyLower_eq_c h' with h'' | h''
    · exact hc h''
    · exact hC h''
  simp only [selection_step]
  rw [if_neg hlc, if_neg h0]
  cases hpi : pyInt u with
  | none => rfl
  | some n => simp only [if_neg (hn n hpi)]

theorem c4_invalid_input_witness :
    selection_step
      [{ name := "A", id := "A.Id", version := "1", available := "2" },
       { name := "B", id := "B.Id", version := "1", available := "2" },
       { name := "C", id := "C.Id", version := "1", available := "2" }] "5" =
      ([], some
        [{ name := "A", id := "A.Id", version := "1", available := "2" },
         { name := "B", id := "B.Id", version := "1", available := "2" },
         { name := "C", id := "C.Id", version := "1", available := "2" }]) := by
  apply c4_invalid_input
  · decide
  · decide
  · decide
  · intro n hn
    rw [show pyInt "5" = some 5 from by decide] at hn
    injection hn with h'
    subst h'
    decide

/-- C5: for any non-empty working list, input `0` performs exactly one
upgrade-all external invocation and terminates immediately; the working
list is not consulted and no per-item invocation occurs. -/
theorem c5_upgrade_all (pkgs : List UpgradeCandidate) (_hne : pkgs ≠ []) :
    selection_step pkgs "0" = ([Invocation.upgradeAll], none) := by
  simp only [selection_step]
  rw [if_neg (show ¬ pyLower "0" = "c" from by decide), if_pos trivial]

theorem c5_upgrade_all_witness :
    selection_step [{ name := "A", id := "A.Id", version := "1", available := "2" }] "0" =
      ([Invocation.upgradeAll], none) :=
  c5_upgrade_all [{ name := "A", id := "A.Id", version := "1", available := "2" }]
    (by decide)

/-- C6: for any working list, input `c` or `C` terminates the loop with
zero external invocations. -/
theorem c6_cancel (pkgs : List UpgradeCandidate) :
    selection_step pkgs "c" = ([], none) ∧ selection_step pkgs "C" = ([], none) := by
  constructor <;> (simp only [selection_step]; rw [if_pos (by decide)])
